import Mathlib

/-!
Shallow embedding of the `razz` path tracer (`razz_lib`) in Lean 4,
together with theorems checking the natural-language specification
against the code.

Modelling conventions:
* Rust `f32` (`type Float = f32`) is modelled by the exact reals `ℝ`;
  rounding is not modelled.  `Float::INFINITY`, which the code only ever
  uses as an upper ray bound, is modelled by `⊤ : WithTop ℝ` in the
  `t_max` position of hit tests.
* `glam::Vec3A` becomes the structure `Vec3` with three real components,
  `Rgba` (a `glam::Vec4`) the structure `Rgba` with four real components.
* `slotmap::SlotMap` pools are modelled as association lists over `ℕ`
  keys with an `Option`-returning `get`; the pools as used by the
  renderer are append-only and read-only, so this captures exactly the
  lookup behaviour the render path depends on.
* Rust code that can panic (`.expect`) is modelled with `Option`:
  a `none` result marks the panic.
* The caller-supplied random generator `impl Rng` is modelled as a
  stream `ℕ → ℝ` of draws; drawing a value returns the shifted stream.
* Trait-generic code (`H: HittableCollection`, `T: Texture`, …) is
  embedded either generically (the `HittableList` fold takes the
  element hit/bounds function as an argument) or at the concrete
  instantiation the crate ships (`SimpleMaterial`, `SimpleTexture`).
* `SimpleTexture::value` recurses through the texture pool and Rust
  would diverge on a key cycle; the embedding adds an explicit `fuel`
  recursion budget, which no theorem below ever exhausts.
-/

namespace Razz

noncomputable section

open scoped Classical

/-! ## Vector and colour primitives (glam Vec3A / Vec4, image.rs) -/

/-- Three-component real vector, modelling `glam::Vec3A` (= `Vec3`/`Point3`). -/
@[ext]
structure Vec3 where
  x : ℝ
  y : ℝ
  z : ℝ

namespace Vec3

/-- Constant `Vec3::ZERO`. -/
def ZERO : Vec3 := ⟨0, 0, 0⟩

/-- Constant `Vec3::ONE`. -/
def ONE : Vec3 := ⟨1, 1, 1⟩

instance : Add Vec3 := ⟨fun a b => ⟨a.x + b.x, a.y + b.y, a.z + b.z⟩⟩

instance : Sub Vec3 := ⟨fun a b => ⟨a.x - b.x, a.y - b.y, a.z - b.z⟩⟩

instance : Neg Vec3 := ⟨fun a => ⟨-a.x, -a.y, -a.z⟩⟩

instance : SMul ℝ Vec3 := ⟨fun s a => ⟨s * a.x, s * a.y, s * a.z⟩⟩

instance : HDiv Vec3 ℝ Vec3 := ⟨fun a s => ⟨a.x / s, a.y / s, a.z / s⟩⟩

/-- Function `Vec3::dot`. -/
def dot (a b : Vec3) : ℝ := a.x * b.x + a.y * b.y + a.z * b.z

/-- Function `Vec3::length_squared`. -/
def length_squared (a : Vec3) : ℝ := dot a a

/-- Function `Vec3::normalize`: divide by the Euclidean length. -/
def normalize (a : Vec3) : Vec3 := a / Real.sqrt a.length_squared

/-- Function `Vec3::cross`. -/
def cross (a b : Vec3) : Vec3 :=
  ⟨a.y * b.z - a.z * b.y, a.z * b.x - a.x * b.z, a.x * b.y - a.y * b.x⟩

/-- Function `Vec3::min`, componentwise. -/
def compMin (a b : Vec3) : Vec3 := ⟨min a.x b.x, min a.y b.y, min a.z b.z⟩

/-- Function `Vec3::max`, componentwise. -/
def compMax (a b : Vec3) : Vec3 := ⟨max a.x b.x, max a.y b.y, max a.z b.z⟩

/-- Function `Vec3::splat`. -/
def splat (s : ℝ) : Vec3 := ⟨s, s, s⟩

end Vec3

/-- RGBA colour with four real components, modelling `Rgba(glam::Vec4)`
from `image.rs`. -/
@[ext]
structure Rgba where
  r : ℝ
  g : ℝ
  b : ℝ
  a : ℝ

namespace Rgba

/-- Constant `Rgba::ZERO`. -/
def ZERO : Rgba := ⟨0, 0, 0, 0⟩

/-- Constant `Rgba::ONE`. -/
def ONE : Rgba := ⟨1, 1, 1, 1⟩

/-- The fixed loud fallback colour used for missing pool keys:
`Rgba::new(1.0, 0.0, 1.0, 1.0)` (magenta). -/
def magenta : Rgba := ⟨1, 0, 1, 1⟩

/-- Componentwise addition, `impl Add for Rgba`. -/
instance : Add Rgba := ⟨fun c d => ⟨c.r + d.r, c.g + d.g, c.b + d.b, c.a + d.a⟩⟩

/-- Componentwise product, `impl Mul for Rgba`. -/
instance : Mul Rgba := ⟨fun c d => ⟨c.r * d.r, c.g * d.g, c.b * d.b, c.a * d.a⟩⟩

/-- Scalar product, `impl Mul<f32> for Rgba`. -/
instance : HMul Rgba ℝ Rgba := ⟨fun c s => ⟨c.r * s, c.g * s, c.b * s, c.a * s⟩⟩

instance : Zero Rgba := ⟨ZERO⟩

instance : AddCommMonoid Rgba where
  add_assoc a b c := by ext <;> exact add_assoc _ _ _
  zero_add a := by ext <;> exact zero_add _
  add_zero a := by ext <;> exact add_zero _
  add_comm a b := by ext <;> exact add_comm _ _
  nsmul := nsmulRec

/-- Method `Rgba::gamma_correct(num_samples, gamma)` from `image.rs`
lines 24–26: `(self.0 / num_samples as Float).powf(gamma)`,
componentwise.  Note that the exponent applied is `gamma` itself,
not `1/gamma`. -/
def gamma_correct (c : Rgba) (num_samples : ℕ) (gamma : ℝ) : Rgba :=
  ⟨(c.r / num_samples) ^ gamma, (c.g / num_samples) ^ gamma,
   (c.b / num_samples) ^ gamma, (c.a / num_samples) ^ gamma⟩

end Rgba

/-! ## Rays -/

/-- Structure `Ray { origin, direction }` from `lib.rs`. -/
structure Ray where
  origin : Vec3
  direction : Vec3

/-- Method `Ray::at`: `origin + t * direction`. -/
def Ray.at (r : Ray) (t : ℝ) : Vec3 := r.origin + t • r.direction

/-! ## Keyed pools (slotmap) -/

/-- Slot-map keys (`MaterialKey`, `TextureKey`, …) modelled as naturals. -/
abbrev Key := ℕ

/-- A slot map modelled as an association list; only `insert`-then-`get`
behaviour is exercised by the render path. -/
abbrev KeyMap (V : Type) := List (Key × V)

/-- Lookup `SlotMap::get`, returning `none` for a missing key. -/
def KeyMap.get {V : Type} : KeyMap V → Key → Option V
  | [], _ => none
  | (k2, v) :: rest, k => if k = k2 then some v else KeyMap.get rest k

/-! ## Random source -/

/-- A caller-supplied random generator, modelled as a stream of draws. -/
def Rng : Type := ℕ → ℝ

/-- Draw one scalar (`rng.gen::<Float>()`), returning the shifted stream. -/
def Rng.gen (r : Rng) : ℝ × Rng := (r 0, fun n => r (n + 1))

/-- Draw one vector (`rng.gen::<Vec3>()`), consuming three scalars. -/
def Rng.genVec3 (r : Rng) : Vec3 × Rng := (⟨r 0, r 1, r 2⟩, fun n => r (n + 3))

/-! ## Hit records and primitives (primative.rs) -/

/-- Structure `HitRecord` from `primative.rs`. -/
structure HitRecord where
  point : Vec3
  normal : Vec3
  time : ℝ
  u : ℝ
  v : ℝ
  front_face : Bool
  material : Key

/-- Enum `RaycastResult` from `primative.rs`. -/
inductive RaycastResult where
  | Hit (rec : HitRecord)
  | Miss

/-- Method `RaycastResult::with_material`: stamp a material key onto a hit. -/
def RaycastResult.with_material : RaycastResult → Key → RaycastResult
  | .Hit rec, mat => .Hit { rec with material := mat }
  | .Miss, _ => .Miss

/-- Structure `BoundingBox { min, max }`. -/
structure BoundingBox where
  min : Vec3
  max : Vec3

/-- Method `BoundingBox::union`: componentwise min of mins, max of maxes. -/
def BoundingBox.union (box1 box2 : BoundingBox) : BoundingBox :=
  ⟨Vec3.compMin box1.min box2.min, Vec3.compMax box1.max box2.max⟩

/-- Function `set_front_face` (primative.rs lines 172–180):
`front_face = dot(direction, outward_normal) < 0`; the returned normal is
the outward normal if front face, its negation otherwise. -/
def set_front_face (r : Ray) (outward_normal : Vec3) : Vec3 × Bool :=
  if Vec3.dot r.direction outward_normal < 0 then (outward_normal, true)
  else (-outward_normal, false)

/-- Two-argument arctangent as computed by `f32::atan2(self = y, other = x)`,
with the standard sign conventions (`atan2 0 (-1) = π`). -/
def atan2 (y x : ℝ) : ℝ :=
  if 0 < x then Real.arctan (y / x)
  else if x < 0 then
    (if 0 ≤ y then Real.arctan (y / x) + Real.pi else Real.arctan (y / x) - Real.pi)
  else
    (if 0 < y then Real.pi / 2 else if y < 0 then -(Real.pi / 2) else 0)

/-- Function `sphere_uv`: `theta = -acos(normal.y)`,
`phi = -atan2(normal.z, normal.x) + PI`, returning
`(phi / (2 PI), theta / PI)`. -/
def sphere_uv (normal : Vec3) : ℝ × ℝ :=
  let theta := -(Real.arccos normal.y)
  let phi := -(atan2 normal.z normal.x) + Real.pi
  (phi / (2 * Real.pi), theta / Real.pi)

/-- Hit record built by `sphere_hit` once a root `t` is accepted: hit
point, front-face-adjusted normal, spherical UV, and the default
(null) material key, later overwritten by `with_material`. -/
def sphere_hit_record (center : Vec3) (radius : ℝ) (r : Ray) (root : ℝ) : RaycastResult :=
  let point := r.at root
  let outward_normal := (point - center) / radius
  let nf := set_front_face r outward_normal
  let uv := sphere_uv nf.1
  .Hit ⟨point, nf.1, root, uv.1, uv.2, nf.2, 0⟩

/-- Function `sphere_hit` (primative.rs lines 190–226): solve the
quadratic, reject a negative discriminant, try the smaller root first and
fall back to the larger one, rejecting roots outside `[t_min, t_max]`. -/
def sphere_hit (center : Vec3) (radius : ℝ) (r : Ray) (t_min : ℝ)
    (t_max : WithTop ℝ) : RaycastResult :=
  let oc := r.origin - center
  let a := r.direction.length_squared
  let half_b := Vec3.dot oc r.direction
  let c := oc.length_squared - radius * radius
  let disc := half_b * half_b - a * c
  if disc < 0 then .Miss
  else
    let sqrtd := Real.sqrt disc
    let root1 := (-half_b - sqrtd) / a
    if root1 < t_min ∨ t_max < (root1 : WithTop ℝ) then
      let root2 := (-half_b + sqrtd) / a
      if root2 < t_min ∨ t_max < (root2 : WithTop ℝ) then .Miss
      else sphere_hit_record center radius r root2
    else sphere_hit_record center radius r root1

/-- Enum `Primative` (the crate's only variant is `Sphere`). -/
inductive Primative where
  | Sphere (center : Vec3) (radius : ℝ) (material : Key)

/-- Method `Hittable::hit` for `Primative`: dispatch to `sphere_hit` and
stamp the primitive's material key on the result. -/
def Primative.hit : Primative → Ray → ℝ → WithTop ℝ → RaycastResult
  | .Sphere center radius material, ray_in, t_min, t_max =>
      (sphere_hit center radius ray_in t_min t_max).with_material material

/-- Method `Hittable::bounds` for `Primative`. -/
def Primative.bounds : Primative → BoundingBox
  | .Sphere center radius _ =>
      ⟨center - Vec3.splat radius, center + Vec3.splat radius⟩

/-! ## HittableList (lib.rs lines 132–172)

The Rust code is generic over a `Hittable` trait; the embedding takes
the element hit/bounds functions as explicit arguments. -/

/-- Method `HittableList::hit`: fold over the objects, narrowing the upper
bound `closest_time` to the time of each hit found, returning the final
result. -/
def hittableListHit {α : Type} (hitFn : α → Ray → ℝ → WithTop ℝ → RaycastResult)
    (objects : List α) (ray_in : Ray) (t_min : ℝ) (t_max : WithTop ℝ) :
    RaycastResult :=
  (objects.foldl
    (fun st obj =>
      match hitFn obj ray_in t_min st.2 with
      | .Hit rec => (RaycastResult.Hit rec, (rec.time : WithTop ℝ))
      | .Miss => st)
    (RaycastResult.Miss, t_max)).1

/-- Method `HittableList::bounds`: union of all object bounds, seeded with
the `{min: 0, max: 0}` box. -/
def hittableListBounds {α : Type} (boundsFn : α → BoundingBox)
    (objects : List α) : BoundingBox :=
  objects.foldl (fun b obj => BoundingBox.union b (boundsFn obj))
    ⟨Vec3.ZERO, Vec3.ZERO⟩

/-! ## Camera (sampler.rs) -/

/-- Structure `BasicCamera` from `sampler.rs`. -/
structure BasicCamera where
  origin : Vec3
  top_right : Vec3
  horizontal : Vec3
  vertical : Vec3
  lens_radius : ℝ
  ar : ℝ
  u : Vec3
  v : Vec3
  w : Vec3

/-- Constructor `BasicCamera::new(from, at, vfov, ar, aperture, focus_dist)`
(sampler.rs lines 40–75). -/
def BasicCamera.new (look_from look_at : Vec3) (vfov ar aperture focus_dist : ℝ) :
    BasicCamera :=
  let theta := vfov * (Real.pi / 180)
  let h := Real.tan (theta * (0.5 : ℝ))
  let viewport_height := 2 * h
  let viewport_width := ar * viewport_height
  let w := (look_from - look_at).normalize
  let u := (Vec3.cross ⟨0, 1, 0⟩ w).normalize
  let v := Vec3.cross w u
  let origin := look_from
  let horizontal := (focus_dist * viewport_width) • u
  let vertical := (focus_dist * viewport_height) • v
  let top_right := origin - (0.5 : ℝ) • horizontal + (0.5 : ℝ) • vertical
      - focus_dist • w
  ⟨origin, top_right, horizontal, vertical, (0.5 : ℝ) * aperture, ar, u, v, w⟩

/-- Method `Sampler::get_ray` for `BasicCamera` (sampler.rs lines 21–38):
jitter the pixel coordinate by two random draws and shoot a ray from the
camera origin through the corresponding viewport point. -/
def BasicCamera.get_ray (cam : BasicCamera) (pixel_x pixel_y width height : ℕ)
    (rng : Rng) : Ray × Rng :=
  let g1 := rng.gen
  let g2 := g1.2.gen
  let u : ℝ := ((pixel_x : ℝ) + g1.1) / (((width - 1 : ℕ) : ℝ))
  let v : ℝ := ((pixel_y : ℝ) + g2.1) / (((height - 1 : ℕ) : ℝ))
  (⟨cam.origin,
    cam.top_right + u • cam.horizontal - v • cam.vertical - cam.origin⟩, g2.2)

/-! ## Textures (texture.rs) -/

/-- Enum `SimpleTexture`.  The `Noise` variant's boxed noise function
(`noise.rs`, Perlin tables) is abstracted as the function it computes;
no claim concerns its internals. -/
inductive SimpleTexture where
  | Solid (color : Rgba)
  | Checker (odd : Key) (even : Key) (scale : ℝ)
  | Noise (sample : Vec3 → ℝ) (scale : ℝ)

/-- Method `SimpleTexture::value` (texture.rs lines 36–63), with a `fuel`
bound on the pool recursion (Rust would diverge on a texture-key cycle;
the fallback at zero fuel is never reached in any theorem below).
A missing checker branch key resolves to magenta. -/
def SimpleTexture.value : ℕ → SimpleTexture → ℝ → ℝ → Vec3 →
    KeyMap SimpleTexture → Rgba
  | _, .Solid color, _, _, _, _ => color
  | 0, .Checker _ _ _, _, _, _, _ => Rgba.magenta
  | fuel + 1, .Checker odd even scale, u, v, p, texture_map =>
      let sines := Real.sin (scale * p.x) * Real.sin (scale * p.y) *
        Real.sin (scale * p.z)
      if sines < 0 then
        match texture_map.get odd with
        | some texture => SimpleTexture.value fuel texture u v p texture_map
        | none => Rgba.magenta
      else
        match texture_map.get even with
        | some texture => SimpleTexture.value fuel texture u v p texture_map
        | none => Rgba.magenta
  | _, .Noise sample scale, _, _, p, _ =>
      Rgba.ONE * ((0.5 : ℝ) * (1 + Real.sin (scale * p.z + 10 * sample p)))

/-- The repeated lookup pattern `match texture_map.get(key) { Some(t) =>
t.value(..), None => magenta }` used by the checker branches and by the
materials. -/
def texture_lookup (fuel : ℕ) (texture_map : KeyMap SimpleTexture) (key : Key)
    (u v : ℝ) (p : Vec3) : Rgba :=
  match texture_map.get key with
  | some texture => SimpleTexture.value fuel texture u v p texture_map
  | none => Rgba.magenta

/-! ## Materials (material.rs) -/

/-- Enum `ScatterResult`. -/
inductive ScatterResult where
  | Scattered (ray_out : Ray) (color : Rgba)
  | Absorbed

/-- Function `near_zero`: every component has absolute value below `1e-8`. -/
def near_zero (v : Vec3) : Prop :=
  |v.x| < (1e-8 : ℝ) ∧ |v.y| < (1e-8 : ℝ) ∧ |v.z| < (1e-8 : ℝ)

/-- Function `reflect`: `v - 2 dot(v, n) n`. -/
def reflect (v n : Vec3) : Vec3 := v - (2 * Vec3.dot v n) • n

/-- Function `refract` (Snell construction used by the dielectric). -/
def refract (v n : Vec3) (eta : ℝ) : Vec3 :=
  let cos_theta := min (Vec3.dot (-v) n) 1
  let perp := eta • (v + cos_theta • n)
  let parallel := (-(Real.sqrt |1 - perp.length_squared|)) • n
  perp + parallel

/-- Function `reflectance`: Schlick's approximation. -/
def reflectance (cosine ref_idx : ℝ) : ℝ :=
  let r0 := (1 - ref_idx) / (1 + ref_idx)
  let r0sq := r0 * r0
  r0sq + (1 - r0sq) * (1 - cosine) ^ (5 : ℕ)

/-- Function `sample_unit_sphere`: normalize a random cube sample shifted
to be centred at the origin. -/
def sample_unit_sphere (rng : Rng) : Vec3 × Rng :=
  let g := rng.genVec3
  ((g.1 - (0.5 : ℝ) • Vec3.ONE).normalize, g.2)

/-- Function `lambertian_scatter` (material.rs lines 67–95). -/
def lambertian_scatter (albedo : Key) (rec : HitRecord)
    (texture_map : KeyMap SimpleTexture) (rng : Rng) (fuel : ℕ) :
    ScatterResult × Rng :=
  let s := sample_unit_sphere rng
  let scatter_dir0 := rec.normal + s.1
  let scatter_dir := if near_zero scatter_dir0 then rec.normal else scatter_dir0
  (.Scattered ⟨rec.point, scatter_dir⟩
      (texture_lookup fuel texture_map albedo rec.u rec.v rec.point), s.2)

/-- Function `metal_scatter` (material.rs lines 97–129). -/
def metal_scatter (albedo : Key) (fuzz : ℝ) (ray_in : Ray) (rec : HitRecord)
    (texture_map : KeyMap SimpleTexture) (rng : Rng) (fuel : ℕ) :
    ScatterResult × Rng :=
  let reflected := reflect ray_in.direction.normalize rec.normal
  let s := sample_unit_sphere rng
  let scattered : Ray := ⟨rec.point, reflected + fuzz • s.1⟩
  (if 0 < Vec3.dot scattered.direction rec.normal then
      ScatterResult.Scattered scattered
        (texture_lookup fuel texture_map albedo rec.u rec.v rec.point)
    else ScatterResult.Absorbed, s.2)

/-- The dielectric's refraction index quotient:
`if front_face { 1.0 / ir } else { ir }`. -/
def dielectric_refraction_factor (ir : ℝ) (rec : HitRecord) : ℝ :=
  if rec.front_face then 1 / ir else ir

/-- The normalized incoming direction `unit_dir`. -/
def unit_direction (ray_in : Ray) : Vec3 := ray_in.direction.normalize

/-- The dielectric's `cos_theta = min(dot(-unit_dir, normal), 1.0)`. -/
def dielectric_cos_theta (ray_in : Ray) (rec : HitRecord) : ℝ :=
  min (Vec3.dot (-unit_direction ray_in) rec.normal) 1

/-- The dielectric's `sin_theta = sqrt(1 - cos_theta^2)`. -/
def dielectric_sin_theta (ray_in : Ray) (rec : HitRecord) : ℝ :=
  Real.sqrt (1 - dielectric_cos_theta ray_in rec * dielectric_cos_theta ray_in rec)

/-- Function `dielectric_scatter` (material.rs lines 131–159): always
returns `Scattered` with white attenuation; reflects when refraction is
impossible (`refraction_ratio * sin_theta > 1`) or when Schlick
reflectance exceeds the random draw, refracts otherwise. -/
def dielectric_scatter (ir : ℝ) (ray_in : Ray) (rec : HitRecord) (rng : Rng) :
    ScatterResult × Rng :=
  let rratio := dielectric_refraction_factor ir rec
  let unit_dir := unit_direction ray_in
  let cos_theta := dielectric_cos_theta ray_in rec
  let sin_theta := dielectric_sin_theta ray_in rec
  let g := rng.gen
  let cannot_refract := 1 < rratio * sin_theta
  let angle_criteria := g.1 < reflectance cos_theta rratio
  let dir := if cannot_refract ∨ angle_criteria then reflect unit_dir rec.normal
    else refract unit_dir rec.normal rratio
  (.Scattered ⟨rec.point, dir⟩ Rgba.ONE, g.2)

/-- Enum `SimpleMaterial`. -/
inductive SimpleMaterial where
  | Lambertian (albedo : Key)
  | Metal (albedo : Key) (fuzz : ℝ)
  | Dielectric (ir : ℝ)
  | DiffuseLight (emitTex : Key)

/-- Method `Material::scatter` for `SimpleMaterial`. -/
def SimpleMaterial.scatter (fuel : ℕ) (m : SimpleMaterial) (ray_in : Ray)
    (rec : HitRecord) (texture_map : KeyMap SimpleTexture) (rng : Rng) :
    ScatterResult × Rng :=
  match m with
  | .Lambertian albedo => lambertian_scatter albedo rec texture_map rng fuel
  | .Metal albedo fuzz => metal_scatter albedo fuzz ray_in rec texture_map rng fuel
  | .Dielectric ir => dielectric_scatter ir ray_in rec rng
  | .DiffuseLight _ => (.Absorbed, rng)

/-- Method `Material::emit` for `SimpleMaterial` (material.rs lines 45–56):
only `DiffuseLight` emits; a missing emit texture key resolves to magenta. -/
def SimpleMaterial.emit (fuel : ℕ) (m : SimpleMaterial) (u v : ℝ) (p : Vec3)
    (texture_map : KeyMap SimpleTexture) : Rgba :=
  match m with
  | .Lambertian _ => Rgba.ZERO
  | .Metal _ _ => Rgba.ZERO
  | .Dielectric _ => Rgba.ZERO
  | .DiffuseLight emitTex => texture_lookup fuel texture_map emitTex u v p

/-! ## World and ray_color (lib.rs lines 74–130) -/

/-- The `World`: texture and material pools plus the hittable collection,
the latter abstracted (as in the generic Rust code) by its hit function. -/
structure World where
  textures : KeyMap SimpleTexture
  materials : KeyMap SimpleMaterial
  hittablesHit : Ray → ℝ → WithTop ℝ → RaycastResult

/-- Method `World::ray_color` (lib.rs lines 95–117).  A `none` result
models the panic of `self.materials.get(rec.material).expect(..)` on a
missing material key.  `fuel` bounds texture-pool recursion only. -/
def World.ray_color (w : World) (fuel : ℕ) : ℕ → Ray → Rng → Option Rgba
  | 0, _, _ => some Rgba.ZERO
  | depth + 1, ray_in, rng =>
    match w.hittablesHit ray_in (1/1000) ⊤ with
    | .Hit rec =>
        match w.materials.get rec.material with
        | none => none
        | some material =>
            let emitted := material.emit fuel rec.u rec.v rec.point w.textures
            match material.scatter fuel ray_in rec w.textures rng with
            | (.Scattered ray_out color, rng2) =>
                (World.ray_color w fuel depth ray_out rng2).map
                  (fun c => emitted + color * c)
            | (.Absorbed, _) => some emitted
    | .Miss => some Rgba.ONE

/-! ## Renderer sample accumulation (render.rs) -/

/-- One per-pixel accumulation step shared (componentwise) by
`ProgressiveRenderer::render` (render.rs lines 36–43) and
`ParallelRenderer::render` (lines 97–109): the first sample is stored
directly, later samples are blended by
`(old * num_samples + new) * (1 / (num_samples + 1))`. -/
def accumulatePixel (num_samples : ℕ) (old new : Rgba) : Rgba :=
  if num_samples = 0 then new
  else (old * (num_samples : ℝ) + new) * ((1 : ℝ) / ((num_samples : ℝ) + 1))

/-- The per-pixel renderer state over a whole run: starting from the
zero-initialised image (`Image::new`) and `num_samples = 0`, fold each
frame's sample colour in with `accumulatePixel` and increment the count. -/
def accumulateSamples (vs : List Rgba) : Rgba × ℕ :=
  vs.foldl (fun st v => (accumulatePixel st.2 st.1 v, st.2 + 1)) (Rgba.ZERO, 0)

/-- The per-sample pixel value both renderers feed into accumulation
(render.rs lines 34 and 90): `sample_color.gamma_correct(1, 2.0)`. -/
def samplePixelValue (sample_color : Rgba) : Rgba :=
  sample_color.gamma_correct 1 2

/-! ## Concrete fixtures used by witnesses -/

/-- Fixture: an incoming ray with unit direction `(4/5, -3/5, 0)`. -/
def ray7 : Ray := ⟨Vec3.ZERO, ⟨4/5, -3/5, 0⟩⟩

/-- Fixture: a hit on the inside of a surface (`front_face = false`) with
normal `(0, 1, 0)`, the geometry of a total-internal-reflection test. -/
def rec7 : HitRecord := ⟨Vec3.ZERO, ⟨0, 1, 0⟩, 0, 0, 0, false, 0⟩

/-- Fixture: the all-zero random stream. -/
def rng0 : Rng := fun _ => 0

/-- Fixture: the spec's test ray from `(-3,0,0)` towards `(1,0,0)`. -/
def ray6 : Ray := ⟨⟨-3, 0, 0⟩, ⟨1, 0, 0⟩⟩

/-- Fixture: the hit record produced by shooting `ray6` at the unit sphere
at the origin carrying material key 5: entry point `(-1,0,0)` at `t = 2`,
front face, spherical UV `(0, -1/2)`. -/
def rec6 : HitRecord := ⟨⟨-1, 0, 0⟩, ⟨-1, 0, 0⟩, 2, 0, -(1/2), true, 5⟩

/-! ## Specification of well-behaved per-object hit tests (for claim C5)

The Rust `Hittable` trait promises, informally, that `obj.hit(ray, t_min,
t_max)` returns the closest intersection of `obj` with the ray inside
`[t_min, t_max]`.  `HitIsMinimal` makes that contract precise: each object
determines a set (list) of candidate hit times along the ray together with
the hit record attached to each time, and `hit` returns the record of the
smallest candidate inside the queried range, or `Miss` when there is
none. -/

/-- The brute-force side of claim C5: `hitFn o` returns the record of the
minimum candidate time of object `o` inside `[t_min, t_max]`, and misses
exactly when no candidate is in range. -/
def HitIsMinimal {α : Type} (hitFn : α → Ray → ℝ → WithTop ℝ → RaycastResult)
    (cand : α → Ray → List ℝ) (recOf : α → Ray → ℝ → HitRecord) : Prop :=
  ∀ (o : α) (ray : Ray) (t_min : ℝ) (t_max : WithTop ℝ),
    (∀ rec, hitFn o ray t_min t_max = .Hit rec →
      rec = recOf o ray rec.time ∧ rec.time ∈ cand o ray
        ∧ t_min ≤ rec.time ∧ (rec.time : WithTop ℝ) ≤ t_max
        ∧ ∀ t ∈ cand o ray, t_min ≤ t → (t : WithTop ℝ) ≤ t_max → rec.time ≤ t)
    ∧ (hitFn o ray t_min t_max = .Miss →
      ∀ t ∈ cand o ray, ¬(t_min ≤ t ∧ (t : WithTop ℝ) ≤ t_max))

/-- Loop invariant of the `HittableList::hit` fold: the accumulator is
either still `(Miss, t_max)` with no object seen so far having a candidate
in range, or `(Hit rec, rec.time)` where `rec` is a record of one of the
seen objects whose time is minimal among all in-range candidates seen. -/
def FoldInv {α : Type} (hitFn : α → Ray → ℝ → WithTop ℝ → RaycastResult)
    (cand : α → Ray → List ℝ) (recOf : α → Ray → ℝ → HitRecord)
    (ray : Ray) (t_min : ℝ) (t_max0 : WithTop ℝ) (seen : List α)
    (st : RaycastResult × WithTop ℝ) : Prop :=
  (st.1 = RaycastResult.Miss → st.2 = t_max0
      ∧ ∀ o ∈ seen, ∀ t ∈ cand o ray, ¬(t_min ≤ t ∧ (t : WithTop ℝ) ≤ t_max0))
  ∧ ∀ rec, st.1 = RaycastResult.Hit rec →
      st.2 = (rec.time : WithTop ℝ)
      ∧ (∃ o ∈ seen, rec = recOf o ray rec.time ∧ rec.time ∈ cand o ray)
      ∧ t_min ≤ rec.time ∧ (rec.time : WithTop ℝ) ≤ t_max0
      ∧ ∀ o ∈ seen, ∀ t ∈ cand o ray, t_min ≤ t → (t : WithTop ℝ) ≤ t_max0 →
          rec.time ≤ t

/-- Fixture: a minimal test `Hittable` for the C5 witness — the object is
a single hit time along the ray. -/
def testCand (o : ℝ) (ray_in : Ray) : List ℝ := [o]

/-- Fixture: the record the test object attaches to a hit time. -/
def testRec (o : ℝ) (ray_in : Ray) (t : ℝ) : HitRecord :=
  ⟨ray_in.at t, Vec3.ZERO, t, 0, 0, true, 0⟩

/-- Fixture: hit function of the test object — hit at its one time when
that time is in range. -/
def testHitFn (o : ℝ) (ray_in : Ray) (t_min : ℝ) (t_max : WithTop ℝ) :
    RaycastResult :=
  if t_min ≤ o ∧ (o : WithTop ℝ) ≤ t_max then .Hit (testRec o ray_in o)
  else .Miss

/-- Fixture: an arbitrary ray for the C5 witness. -/
def rayW : Ray := ⟨Vec3.ZERO, ⟨0, 0, 1⟩⟩

/-- Fixture: a generic front-face hit record carrying material key 0. -/
def recL : HitRecord := ⟨Vec3.ZERO, ⟨0, 1, 0⟩, 1, 0, 0, true, 0⟩

/-- Fixture: a world whose collection never hits anything. -/
def wmiss : World := ⟨[], [], fun _ _ _ => .Miss⟩

/-- Fixture: a world with a white diffuse light everywhere the ray looks. -/
def wlight : World :=
  ⟨[(0, .Solid ⟨1, 1, 1, 1⟩)], [(0, .DiffuseLight 0)], fun _ _ _ => .Hit recL⟩

/-- Fixture: a world made of glass (`ior = 3/2`) hit from the inside. -/
def wdiel : World := ⟨[], [(0, .Dielectric (3/2))], fun _ _ _ => .Hit rec7⟩

/-- Fixture: a world whose collection always hits a primitive that refers
to material key 0 while the material pool is empty. -/
def wcx : World := ⟨[], [], fun _ _ _ => .Hit recL⟩

/-! # Theorems -/

/-! ## Structure-operation unfolding lemmas -/

namespace Vec3

@[simp] theorem v3_add_def (a b : Vec3) :
    a + b = ⟨a.x + b.x, a.y + b.y, a.z + b.z⟩ := rfl

@[simp] theorem v3_sub_def (a b : Vec3) :
    a - b = ⟨a.x - b.x, a.y - b.y, a.z - b.z⟩ := rfl

@[simp] theorem v3_neg_def (a : Vec3) : -a = ⟨-a.x, -a.y, -a.z⟩ := rfl

@[simp] theorem v3_smul_def (s : ℝ) (a : Vec3) :
    s • a = ⟨s * a.x, s * a.y, s * a.z⟩ := rfl

@[simp] theorem v3_div_def (a : Vec3) (s : ℝ) :
    a / s = ⟨a.x / s, a.y / s, a.z / s⟩ := rfl

@[simp] theorem dot_neg_right (a b : Vec3) : dot a (-b) = -(dot a b) := by
  simp [dot]; ring

end Vec3

namespace Rgba

@[simp] theorem rgba_add_def (c d : Rgba) :
    c + d = ⟨c.r + d.r, c.g + d.g, c.b + d.b, c.a + d.a⟩ := rfl

@[simp] theorem rgba_mul_def (c d : Rgba) :
    c * d = ⟨c.r * d.r, c.g * d.g, c.b * d.b, c.a * d.a⟩ := rfl

@[simp] theorem rgba_smul_def (c : Rgba) (s : ℝ) :
    c * s = (⟨c.r * s, c.g * s, c.b * s, c.a * s⟩ : Rgba) := rfl

@[simp] theorem rgba_zero_def : (0 : Rgba) = ⟨0, 0, 0, 0⟩ := rfl

end Rgba

/-! ## Accumulation lemmas and claims C3, C1 -/

private lemma accumulatePixel_succ (k : ℕ) (old new : Rgba) :
    accumulatePixel (k + 1) old new
      = (old * ((k : ℝ) + 1) + new) * ((1 : ℝ) / ((k : ℝ) + 2)) := by
  rw [accumulatePixel, if_neg (Nat.succ_ne_zero k)]
  ext <;> (simp only [Rgba.rgba_smul_def, Rgba.rgba_add_def]; push_cast; ring)

private lemma accumulatePixel_succ_scaled (k : ℕ) (m v : Rgba) :
    accumulatePixel (k + 1) m v * ((k : ℝ) + 2) = m * ((k : ℝ) + 1) + v := by
  have hk : ((k : ℝ) + 2) ≠ 0 := by positivity
  rw [accumulatePixel_succ]
  ext <;> (simp only [Rgba.rgba_smul_def, Rgba.rgba_add_def]; field_simp; try ring)

private lemma accumulateSamples_count (vs : List Rgba) :
    ∀ st : Rgba × ℕ,
      (vs.foldl (fun st v => (accumulatePixel st.2 st.1 v, st.2 + 1)) st).2
        = st.2 + vs.length := by
  induction vs with
  | nil => intro st; simp
  | cons v rest ih => intro st; simp [ih]; omega

private lemma accumulateSamples_inv (vs : List Rgba) :
    ∀ (m : Rgba) (k : ℕ),
      (vs.foldl (fun st v => (accumulatePixel st.2 st.1 v, st.2 + 1)) (m, k + 1)).1
        = (m * ((k : ℝ) + 1) + vs.sum) * ((1 : ℝ) / ((k : ℝ) + 1 + (vs.length : ℝ))) := by
  induction vs with
  | nil =>
      intro m k
      have hk : ((k : ℝ) + 1) ≠ 0 := by positivity
      ext <;>
        (simp only [List.foldl_nil, List.sum_nil, List.length_nil, Nat.cast_zero,
           Rgba.rgba_zero_def, Rgba.rgba_smul_def, Rgba.rgba_add_def, add_zero]
         field_simp)
  | cons v rest ih =>
      intro m k
      have key := accumulatePixel_succ_scaled k m v
      simp only [List.foldl_cons, List.sum_cons, List.length_cons]
      rw [show (accumulatePixel (k + 1) m v, k + 1 + 1)
            = (accumulatePixel (k + 1) m v, (k + 1) + 1) from rfl, ih]
      have hcast : ((k : ℝ) + 1) + 1 = (k : ℝ) + 2 := by ring
      push_cast
      rw [hcast, key]
      ext <;> (simp only [Rgba.rgba_smul_def, Rgba.rgba_add_def]; ring)

private lemma nsmul_rgba (n : ℕ) (c : Rgba) : n • c = c * (n : ℝ) := by
  induction n with
  | zero => ext <;> simp
  | succ m ih =>
      rw [succ_nsmul, ih]
      ext <;> (simp only [Rgba.rgba_smul_def, Rgba.rgba_add_def]; push_cast; ring)

private lemma accumulateSamples_mean (vs : List Rgba) (h : vs ≠ []) :
    (accumulateSamples vs).1 = vs.sum * ((1 : ℝ) / (vs.length : ℝ)) := by
  match vs, h with
  | v :: rest, _ =>
      have h0 : accumulatePixel 0 Rgba.ZERO v = v := by simp [accumulatePixel]
      have := accumulateSamples_inv rest v 0
      simp only [accumulateSamples, List.foldl_cons, h0, Nat.zero_add] at *
      rw [this]
      simp only [List.sum_cons, List.length_cons]
      ext <;> (simp only [Rgba.rgba_smul_def, Rgba.rgba_add_def]; push_cast; ring_nf)

/-- Claim C3: each renderer call adds exactly one sample per pixel and
updates the stored pixel by `new_avg = (old_avg * n + new_sample) / (n + 1)`
before incrementing `n`; consequently in exact arithmetic the stored value
after accumulating samples `v_1..v_n` is their mean `(Σ v_i) / n`, and `n`
identical samples leave the stored value equal to one sample. -/
theorem claim_C3 (vs : List Rgba) (h : vs ≠ []) :
    (∀ (n : ℕ) (old s : Rgba),
        accumulatePixel n old s = (old * (n : ℝ) + s) * ((1 : ℝ) / ((n : ℝ) + 1)))
    ∧ (accumulateSamples vs).2 = vs.length
    ∧ (accumulateSamples vs).1 = vs.sum * ((1 : ℝ) / (vs.length : ℝ))
    ∧ ∀ (c : Rgba) (n : ℕ), 1 ≤ n →
        (accumulateSamples (List.replicate n c)).1 = c := by
  refine ⟨?_, ?_, accumulateSamples_mean vs h, ?_⟩
  · intro n old s
    cases n with
    | zero =>
        have h0 : accumulatePixel 0 old s = s := by rw [accumulatePixel, if_pos rfl]
        rw [h0]
        ext <;> (simp only [Rgba.rgba_smul_def, Rgba.rgba_add_def, Nat.cast_zero]; ring_nf)
    | succ m =>
        rw [accumulatePixel_succ]
        ext <;> (simp only [Rgba.rgba_smul_def, Rgba.rgba_add_def]; push_cast; ring)
  · simpa [accumulateSamples] using accumulateSamples_count vs (Rgba.ZERO, 0)
  · intro c n hn
    have hne : List.replicate n c ≠ [] := by
      cases n with
      | zero => omega
      | succ m => simp
    have hnz : ((n : ℝ)) ≠ 0 := by
      have : 0 < n := hn
      positivity
    rw [accumulateSamples_mean _ hne, List.sum_replicate, nsmul_rgba,
      List.length_replicate]
    ext <;> (simp only [Rgba.rgba_smul_def, Rgba.rgba_add_def]; field_simp)

/-- Witness for C3: accumulating the two samples `(1,1,1,1)` and `(3,0,0,1)`
yields the exact mean `(2, 1/2, 1/2, 1)`, and three identical samples
`(1, 1/4, 0, 1)` leave the stored value equal to that sample. -/
theorem claim_C3_witness :
    ([⟨1, 1, 1, 1⟩, ⟨3, 0, 0, 1⟩] : List Rgba) ≠ []
    ∧ (accumulateSamples [⟨1, 1, 1, 1⟩, ⟨3, 0, 0, 1⟩]).1 = ⟨2, 1/2, 1/2, 1⟩
    ∧ (accumulateSamples (List.replicate 3 ⟨1, 1/4, 0, 1⟩)).1 = ⟨1, 1/4, 0, 1⟩ := by
  have H := claim_C3 [⟨1, 1, 1, 1⟩, ⟨3, 0, 0, 1⟩] (by simp)
  refine ⟨by simp, ?_, H.2.2.2 ⟨1, 1/4, 0, 1⟩ 3 (by norm_num)⟩
  rw [H.2.2.1]
  ext <;> (simp only [List.sum_cons, List.sum_nil, List.length_cons, List.length_nil,
    Rgba.rgba_zero_def, Rgba.rgba_add_def, Rgba.rgba_smul_def]; norm_num)

/-- Claim C1 (code bug): the spec says each per-pixel sample colour is
gamma-corrected as `color^(1/gamma)` with `gamma = 2.0` (componentwise
square root) before accumulation, so the accumulated value for a first
sample should be `color^(1/2)`.  The code's `Rgba::gamma_correct` computes
`(color / num_samples).powf(gamma)` — the exponent is `gamma` itself — so
with the call `gamma_correct(1, 2.0)` the accumulated value is the
componentwise square: running it on the sample `(1/4, 1/4, 1/4, 1)` stores
`(1/16, 1/16, 1/16, 1)`, while the claimed square root is `(1/2, ...)`.
The function's own name documents the intent (gamma correction is
definitionally `v^(1/γ)`), so the code contradicts it. -/
theorem claim_C1 :
    samplePixelValue ⟨1/4, 1/4, 1/4, 1⟩ = ⟨1/16, 1/16, 1/16, 1⟩
    ∧ accumulatePixel 0 Rgba.ZERO (samplePixelValue ⟨1/4, 1/4, 1/4, 1⟩)
        = ⟨1/16, 1/16, 1/16, 1⟩
    ∧ ((1/4 : ℝ) ^ ((1 : ℝ)/2) = 1/2)
    ∧ (Rgba.mk (1/16) (1/16) (1/16) 1 ≠ ⟨1/2, 1/2, 1/2, 1⟩) := by
  have h2 : ∀ x : ℝ, x ^ (2 : ℝ) = x * x := by
    intro x
    rw [show (2 : ℝ) = ((2 : ℕ) : ℝ) by norm_num, Real.rpow_natCast]
    ring
  have hval : samplePixelValue ⟨1/4, 1/4, 1/4, 1⟩ = ⟨1/16, 1/16, 1/16, 1⟩ := by
    simp only [samplePixelValue, Rgba.gamma_correct, Nat.cast_one, h2]
    ext <;> norm_num
  have hroot : ((1/4 : ℝ)) ^ ((1 : ℝ)/2) = 1/2 := by
    have hb : (0 : ℝ) ≤ 1/2 := by norm_num
    calc ((1/4 : ℝ)) ^ ((1 : ℝ)/2)
        = ((1/2 : ℝ) ^ (2 : ℝ)) ^ ((1 : ℝ)/2) := by rw [h2]; norm_num
      _ = (1/2 : ℝ) ^ ((2 : ℝ) * ((1 : ℝ)/2)) := (Real.rpow_mul hb _ _).symm
      _ = (1/2 : ℝ) ^ ((1 : ℝ)) := by norm_num
      _ = 1/2 := Real.rpow_one _
  refine ⟨hval, ?_, hroot, ?_⟩
  · rw [hval]; simp [accumulatePixel]
  · intro hcontra
    have := congrArg Rgba.r hcontra
    norm_num at this

/-! ## Camera claim C8 -/

/-- Claim C8: for every pixel coordinate, image size and random jitter,
`BasicCamera::get_ray` returns a ray whose origin is the camera's stored
origin, and `BasicCamera::new` stores `look_from` as that origin; the
aperture / focus-distance lens jitter is never applied to the ray origin. -/
theorem claim_C8 (cam : BasicCamera) (pixel_x pixel_y width height : ℕ)
    (rng : Rng) (look_from look_at : Vec3) (vfov ar aperture focus_dist : ℝ) :
    (cam.get_ray pixel_x pixel_y width height rng).1.origin = cam.origin
    ∧ (BasicCamera.new look_from look_at vfov ar aperture focus_dist).origin
        = look_from :=
  ⟨rfl, rfl⟩

/-! ## HittableList bounds claim C9 -/

private lemma hittableListBounds_fold {α : Type} (boundsFn : α → BoundingBox) :
    ∀ (objects : List α) (acc : BoundingBox),
      (objects.foldl (fun b obj => BoundingBox.union b (boundsFn obj)) acc).min.x
          ≤ acc.min.x
      ∧ (objects.foldl (fun b obj => BoundingBox.union b (boundsFn obj)) acc).min.y
          ≤ acc.min.y
      ∧ (objects.foldl (fun b obj => BoundingBox.union b (boundsFn obj)) acc).min.z
          ≤ acc.min.z
      ∧ acc.max.x
          ≤ (objects.foldl (fun b obj => BoundingBox.union b (boundsFn obj)) acc).max.x
      ∧ acc.max.y
          ≤ (objects.foldl (fun b obj => BoundingBox.union b (boundsFn obj)) acc).max.y
      ∧ acc.max.z
          ≤ (objects.foldl (fun b obj => BoundingBox.union b (boundsFn obj)) acc).max.z := by
  intro objects
  induction objects with
  | nil =>
      intro acc
      simp only [List.foldl_nil]
      exact ⟨le_refl _, le_refl _, le_refl _, le_refl _, le_refl _, le_refl _⟩
  | cons o rest ih =>
      intro acc
      have h := ih (BoundingBox.union acc (boundsFn o))
      simp only [List.foldl_cons]
      simp only [BoundingBox.union, Vec3.compMin, Vec3.compMax] at h
      exact ⟨le_trans h.1 (min_le_left _ _),
        le_trans h.2.1 (min_le_left _ _),
        le_trans h.2.2.1 (min_le_left _ _),
        le_trans (le_max_left _ _) h.2.2.2.1,
        le_trans (le_max_left _ _) h.2.2.2.2.1,
        le_trans (le_max_left _ _) h.2.2.2.2.2⟩

/-- Claim C9: for every `HittableList`, `bounds()` returns a box whose min
is componentwise at most 0 and whose max is componentwise at least 0
(the box always contains the origin), because the union fold is seeded
with the zero box; the empty list yields exactly the zero box. -/
theorem claim_C9 {α : Type} (boundsFn : α → BoundingBox) (objects : List α) :
    ((hittableListBounds boundsFn objects).min.x ≤ 0
      ∧ (hittableListBounds boundsFn objects).min.y ≤ 0
      ∧ (hittableListBounds boundsFn objects).min.z ≤ 0
      ∧ 0 ≤ (hittableListBounds boundsFn objects).max.x
      ∧ 0 ≤ (hittableListBounds boundsFn objects).max.y
      ∧ 0 ≤ (hittableListBounds boundsFn objects).max.z)
    ∧ hittableListBounds boundsFn ([] : List α) = ⟨Vec3.ZERO, Vec3.ZERO⟩ := by
  refine ⟨?_, rfl⟩
  have h := hittableListBounds_fold boundsFn objects ⟨Vec3.ZERO, Vec3.ZERO⟩
  simpa [hittableListBounds, Vec3.ZERO] using h

/-! ## Checker texture claim C10 -/

/-- Claim C10: the checker texture computes
`sines = sin(scale*x) * sin(scale*y) * sin(scale*z)` and selects the odd
key only when `sines < 0`; a product that is exactly zero (and generally
any nonnegative product) selects the even key. -/
theorem claim_C10 (fuel : ℕ) (odd even : Key) (scale u v : ℝ) (p : Vec3)
    (texture_map : KeyMap SimpleTexture) :
    (Real.sin (scale * p.x) * Real.sin (scale * p.y) * Real.sin (scale * p.z) = 0 →
      SimpleTexture.value (fuel + 1) (.Checker odd even scale) u v p texture_map
        = texture_lookup fuel texture_map even u v p)
    ∧ (0 ≤ Real.sin (scale * p.x) * Real.sin (scale * p.y) * Real.sin (scale * p.z) →
      SimpleTexture.value (fuel + 1) (.Checker odd even scale) u v p texture_map
        = texture_lookup fuel texture_map even u v p)
    ∧ (Real.sin (scale * p.x) * Real.sin (scale * p.y) * Real.sin (scale * p.z) < 0 →
      SimpleTexture.value (fuel + 1) (.Checker odd even scale) u v p texture_map
        = texture_lookup fuel texture_map odd u v p) := by
  refine ⟨?_, ?_, ?_⟩
  · intro h
    simp only [SimpleTexture.value]
    rw [if_neg (by rw [h]; exact lt_irrefl 0)]
    rfl
  · intro h
    simp only [SimpleTexture.value]
    rw [if_neg (not_lt.mpr h)]
    rfl
  · intro h
    simp only [SimpleTexture.value]
    rw [if_pos h]
    rfl

/-- Witness for C10: at the point `(0, 5, 7)` with scale 1 the sine product
is exactly zero (its first factor is `sin 0`), and the checker with the
even key mapped to solid blue evaluates to blue. -/
theorem claim_C10_witness :
    (Real.sin ((1 : ℝ) * (Vec3.mk 0 5 7).x) * Real.sin ((1 : ℝ) * (Vec3.mk 0 5 7).y)
        * Real.sin ((1 : ℝ) * (Vec3.mk 0 5 7).z) = 0)
    ∧ SimpleTexture.value 1 (.Checker 1 0 1) 0 0 ⟨0, 5, 7⟩
        [(0, .Solid ⟨0, 0, 1, 1⟩)] = ⟨0, 0, 1, 1⟩ := by
  have hs : Real.sin ((1 : ℝ) * (Vec3.mk 0 5 7).x)
      * Real.sin ((1 : ℝ) * (Vec3.mk 0 5 7).y)
      * Real.sin ((1 : ℝ) * (Vec3.mk 0 5 7).z) = 0 := by
    simp
  refine ⟨hs, ?_⟩
  have h := (claim_C10 0 1 0 1 0 0 ⟨0, 5, 7⟩ [(0, .Solid ⟨0, 0, 1, 1⟩)]).1 hs
  rw [h]
  simp [texture_lookup, KeyMap.get, SimpleTexture.value]

/-! ## Dielectric claim C7 -/

/-- Claim C7: `dielectric_scatter` always returns `Scattered` with the
fixed white attenuation (never `Absorbed`), and whenever
`refraction_ratio * sin_theta > 1` (total internal reflection) the
outgoing direction is the mirror reflection of the unit incoming
direction about the normal, regardless of the random draw. -/
theorem claim_C7 (ir : ℝ) (ray_in : Ray) (rec : HitRecord) (rng : Rng) :
    (∃ ray_out rng2, dielectric_scatter ir ray_in rec rng
        = (.Scattered ray_out Rgba.ONE, rng2))
    ∧ (1 < dielectric_refraction_factor ir rec * dielectric_sin_theta ray_in rec →
        ∃ rng2, dielectric_scatter ir ray_in rec rng
          = (.Scattered ⟨rec.point, reflect (unit_direction ray_in) rec.normal⟩
              Rgba.ONE, rng2)) := by
  constructor
  · simp only [dielectric_scatter]
    exact ⟨_, _, rfl⟩
  · intro h
    simp only [dielectric_scatter]
    rw [if_pos (Or.inl h)]
    exact ⟨_, rfl⟩

private lemma ray7_unit_eval : unit_direction ray7 = ⟨4/5, -3/5, 0⟩ := by
  have hls : (ray7.direction).length_squared = 1 := by
    simp [Vec3.length_squared, Vec3.dot, ray7]
    norm_num
  simp only [unit_direction, Vec3.normalize, hls, Real.sqrt_one]
  simp [ray7]

private lemma ray7_cos_eval : dielectric_cos_theta ray7 rec7 = 3/5 := by
  simp only [dielectric_cos_theta, ray7_unit_eval]
  simp [Vec3.dot, rec7]
  norm_num

private lemma ray7_sin_eval : dielectric_sin_theta ray7 rec7 = 4/5 := by
  simp only [dielectric_sin_theta, ray7_cos_eval]
  rw [show (1 : ℝ) - 3/5 * (3/5) = (4/5) ^ 2 by norm_num,
    Real.sqrt_sq (by norm_num : (0 : ℝ) ≤ 4/5)]

private lemma ray7_fac_eval : dielectric_refraction_factor (3/2) rec7 = 3/2 := by
  simp [dielectric_refraction_factor, rec7]

private lemma ray7_tir :
    1 < dielectric_refraction_factor (3/2) rec7 * dielectric_sin_theta ray7 rec7 := by
  rw [ray7_fac_eval, ray7_sin_eval]; norm_num

private lemma dielectric_scatter_eval :
    dielectric_scatter (3/2) ray7 rec7 rng0
      = (.Scattered ⟨rec7.point, reflect (unit_direction ray7) rec7.normal⟩
          Rgba.ONE, (Rng.gen rng0).2) := by
  simp only [dielectric_scatter]
  rw [if_pos (Or.inl ray7_tir)]

/-- Witness for C7: with `ior = 3/2`, an inside hit (`front_face = false`)
and incidence direction `(4/5, -3/5, 0)` against normal `(0, 1, 0)`, the
product `refraction_ratio * sin_theta = 3/2 * 4/5 = 6/5` exceeds 1, and
the scattered direction is the mirror reflection `(4/5, 3/5, 0)` even for
the all-zero random stream. -/
theorem claim_C7_witness :
    (1 < dielectric_refraction_factor (3/2) rec7 * dielectric_sin_theta ray7 rec7)
    ∧ reflect (unit_direction ray7) rec7.normal = ⟨4/5, 3/5, 0⟩
    ∧ ∃ rng2, dielectric_scatter (3/2) ray7 rec7 rng0
        = (.Scattered ⟨rec7.point, reflect (unit_direction ray7) rec7.normal⟩
            Rgba.ONE, rng2) := by
  refine ⟨ray7_tir, ?_, (claim_C7 (3/2) ray7 rec7 rng0).2 ray7_tir⟩
  rw [ray7_unit_eval]
  simp [reflect, Vec3.dot, rec7]
  norm_num

/-! ## Front-face invariant, claim C6 -/

private lemma set_front_face_spec (r : Ray) (ow : Vec3) :
    Vec3.dot r.direction (set_front_face r ow).1 ≤ 0
    ∧ ((set_front_face r ow).2 = true ↔ Vec3.dot r.direction ow < 0) := by
  unfold set_front_face
  by_cases h : Vec3.dot r.direction ow < 0
  · rw [if_pos h]
    exact ⟨le_of_lt h, by simpa using h⟩
  · rw [if_neg h]
    have h0 : 0 ≤ Vec3.dot r.direction ow := not_lt.mp h
    constructor
    · rw [Vec3.dot_neg_right]
      exact neg_nonpos.mpr h0
    · simpa using h

private lemma sphere_hit_record_inv (center : Vec3) (radius : ℝ) (r : Ray)
    (root : ℝ) (rec0 : HitRecord)
    (h : sphere_hit_record center radius r root = .Hit rec0) :
    rec0.point = r.at root
    ∧ rec0.normal = (set_front_face r ((r.at root - center) / radius)).1
    ∧ rec0.front_face = (set_front_face r ((r.at root - center) / radius)).2 := by
  simp only [sphere_hit_record, RaycastResult.Hit.injEq] at h
  subst h
  exact ⟨rfl, rfl, rfl⟩

private lemma sphere_hit_inv (center : Vec3) (radius : ℝ) (r : Ray)
    (t_min : ℝ) (t_max : WithTop ℝ) (rec0 : HitRecord)
    (h : sphere_hit center radius r t_min t_max = .Hit rec0) :
    ∃ root, sphere_hit_record center radius r root = .Hit rec0 := by
  simp only [sphere_hit] at h
  split_ifs at h
  · exact ⟨_, h⟩
  · exact ⟨_, h⟩

/-- Claim C6: every successful primitive intersection returns a hit record
whose normal satisfies `dot(ray.direction, normal) ≤ 0`, and whose
`front_face` flag is true exactly when the outward normal
`(point - center) / radius` makes a negative dot product with the ray
direction. -/
theorem claim_C6 (center : Vec3) (radius : ℝ) (material : Key) (ray_in : Ray)
    (t_min : ℝ) (t_max : WithTop ℝ) (rec : HitRecord)
    (h : Primative.hit (.Sphere center radius material) ray_in t_min t_max
      = .Hit rec) :
    Vec3.dot ray_in.direction rec.normal ≤ 0
    ∧ (rec.front_face = true
        ↔ Vec3.dot ray_in.direction ((rec.point - center) / radius) < 0) := by
  simp only [Primative.hit] at h
  cases hs : sphere_hit center radius ray_in t_min t_max with
  | Miss => rw [hs] at h; exact absurd h (by simp [RaycastResult.with_material])
  | Hit rec0 =>
      rw [hs] at h
      simp only [RaycastResult.with_material, RaycastResult.Hit.injEq] at h
      obtain ⟨root, hrec⟩ := sphere_hit_inv _ _ _ _ _ _ hs
      obtain ⟨hp, hn, hf⟩ := sphere_hit_record_inv _ _ _ _ _ hrec
      have hpoint : rec.point = ray_in.at root := by rw [← h]; exact hp
      have hnormal : rec.normal
          = (set_front_face ray_in ((ray_in.at root - center) / radius)).1 := by
        rw [← h]; exact hn
      have hface : rec.front_face
          = (set_front_face ray_in ((ray_in.at root - center) / radius)).2 := by
        rw [← h]; exact hf
      have spec := set_front_face_spec ray_in ((ray_in.at root - center) / radius)
      refine ⟨by rw [hnormal]; exact spec.1, ?_⟩
      rw [hface, hpoint]
      exact spec.2

/-- Witness for C6: the ray from `(-3,0,0)` along `(1,0,0)` hits the unit
sphere at the origin at `t = 2`, producing exactly the record `rec6`, and
the front-face invariant holds there. -/
theorem claim_C6_witness :
    Primative.hit (.Sphere Vec3.ZERO 1 5) ray6 0 ⊤ = .Hit rec6
    ∧ Vec3.dot ray6.direction rec6.normal ≤ 0
    ∧ (rec6.front_face = true
        ↔ Vec3.dot ray6.direction ((rec6.point - Vec3.ZERO) / (1 : ℝ)) < 0) := by
  have hpt : ray6.at 2 = ⟨-1, 0, 0⟩ := by
    simp [Ray.at, ray6]
    norm_num
  have hsf : set_front_face ray6 ⟨-1, 0, 0⟩ = (⟨-1, 0, 0⟩, true) := by
    rw [set_front_face, if_pos]
    simp [Vec3.dot, ray6]
  have huv : sphere_uv ⟨-1, 0, 0⟩ = (0, -(1/2)) := by
    simp only [sphere_uv, atan2]
    norm_num [Real.arccos_zero, Real.arctan_zero]
    rw [neg_div, neg_inj, div_div,
      div_eq_div_iff (by positivity : (2 : ℝ) * Real.pi ≠ 0)
        (by norm_num : (2 : ℝ) ≠ 0)]
    ring
  have how : (Vec3.mk (-1) 0 0 - Vec3.ZERO) / (1 : ℝ) = ⟨-1, 0, 0⟩ := by
    simp [Vec3.ZERO]
  have hrecord : sphere_hit_record Vec3.ZERO 1 ray6 2
      = .Hit ⟨⟨-1, 0, 0⟩, ⟨-1, 0, 0⟩, 2, 0, -(1/2), true, 0⟩ := by
    simp only [sphere_hit_record, hpt, how, hsf, huv]
  have hsphere : sphere_hit Vec3.ZERO 1 ray6 0 ⊤
      = .Hit ⟨⟨-1, 0, 0⟩, ⟨-1, 0, 0⟩, 2, 0, -(1/2), true, 0⟩ := by
    rw [← hrecord]
    simp only [sphere_hit]
    norm_num [ray6, Vec3.ZERO, Vec3.dot, Vec3.length_squared, Real.sqrt_one,
      not_top_lt]
  have hhit : Primative.hit (.Sphere Vec3.ZERO 1 5) ray6 0 ⊤ = .Hit rec6 := by
    simp only [Primative.hit, hsphere, RaycastResult.with_material]
    rfl
  exact ⟨hhit, claim_C6 _ _ _ _ _ _ _ hhit⟩

/-! ## Closest-hit claim C5 -/

private lemma foldInv_step {α : Type}
    (hitFn : α → Ray → ℝ → WithTop ℝ → RaycastResult)
    (cand : α → Ray → List ℝ) (recOf : α → Ray → ℝ → HitRecord)
    (hmin : HitIsMinimal hitFn cand recOf)
    (ray : Ray) (t_min : ℝ) (t_max0 : WithTop ℝ)
    (seen : List α) (o : α) (st : RaycastResult × WithTop ℝ)
    (hst : FoldInv hitFn cand recOf ray t_min t_max0 seen st) :
    FoldInv hitFn cand recOf ray t_min t_max0 (seen ++ [o])
      (match hitFn o ray t_min st.2 with
       | .Hit rec => (RaycastResult.Hit rec, (rec.time : WithTop ℝ))
       | .Miss => st) := by
  cases hcase : hitFn o ray t_min st.2 with
  | Miss =>
      constructor
      · intro hm
        obtain ⟨h2, hnone⟩ := hst.1 hm
        refine ⟨h2, ?_⟩
        intro o2 ho2 t ht hvalid
        rcases List.mem_append.mp ho2 with hmem | hmem
        · exact hnone o2 hmem t ht hvalid
        · have heq : o2 = o := by simpa using hmem
          subst heq
          rw [h2] at hcase
          exact (hmin o2 ray t_min t_max0).2 hcase t ht hvalid
      · intro rec hr
        obtain ⟨h2, hex, htmin, htmax, hminim⟩ := hst.2 rec hr
        refine ⟨h2, ?_, htmin, htmax, ?_⟩
        · obtain ⟨o2, ho2, h⟩ := hex
          exact ⟨o2, List.mem_append.mpr (Or.inl ho2), h⟩
        · intro o2 ho2 t ht h1 h2'
          rcases List.mem_append.mp ho2 with hmem | hmem
          · exact hminim o2 hmem t ht h1 h2'
          · have heq : o2 = o := by simpa using hmem
            subst heq
            have hms := (hmin o2 ray t_min st.2).2 hcase t ht
            rw [h2] at hms
            by_contra hlt
            push_neg at hlt
            exact hms ⟨h1, by exact_mod_cast le_of_lt hlt⟩
  | Hit rec2 =>
      obtain ⟨hrec2, hmem2, htmin2, hle2, hminim2⟩ :=
        (hmin o ray t_min st.2).1 rec2 hcase
      constructor
      · intro hm
        exact absurd hm (by simp)
      · intro rec hr
        have heq : rec2 = rec := by simpa using hr
        subst heq
        refine ⟨rfl, ⟨o, List.mem_append.mpr (Or.inr (by simp)), hrec2, hmem2⟩,
          htmin2, ?_, ?_⟩
        · cases hst1 : st.1 with
          | Miss =>
              have h2 := (hst.1 hst1).1
              rw [h2] at hle2
              exact hle2
          | Hit rec1 =>
              have h1 := hst.2 rec1 hst1
              rw [h1.1] at hle2
              exact le_trans hle2 h1.2.2.2.1
        · intro o2 ho2 t ht h1 h2'
          rcases List.mem_append.mp ho2 with hmem | hmem
          · cases hst1 : st.1 with
            | Miss =>
                exact absurd ⟨h1, h2'⟩ ((hst.1 hst1).2 o2 hmem t ht)
            | Hit rec1 =>
                have hfold := hst.2 rec1 hst1
                have h1t : rec1.time ≤ t := hfold.2.2.2.2 o2 hmem t ht h1 h2'
                have h21 : rec2.time ≤ rec1.time := by
                  rw [hfold.1] at hle2
                  exact_mod_cast hle2
                exact le_trans h21 h1t
          · have heq : o2 = o := by simpa using hmem
            subst heq
            by_cases hcmp : (t : WithTop ℝ) ≤ st.2
            · exact hminim2 t ht h1 hcmp
            · have hchain : (rec2.time : WithTop ℝ) ≤ (t : WithTop ℝ) :=
                le_trans hle2 (le_of_lt (not_le.mp hcmp))
              exact_mod_cast hchain

private lemma foldInv_init {α : Type}
    (hitFn : α → Ray → ℝ → WithTop ℝ → RaycastResult)
    (cand : α → Ray → List ℝ) (recOf : α → Ray → ℝ → HitRecord)
    (ray : Ray) (t_min : ℝ) (t_max : WithTop ℝ) :
    FoldInv hitFn cand recOf ray t_min t_max [] (RaycastResult.Miss, t_max) := by
  constructor
  · intro _
    exact ⟨rfl, by simp⟩
  · intro rec h
    exact absurd h (by simp)

private lemma foldInv_fold {α : Type}
    (hitFn : α → Ray → ℝ → WithTop ℝ → RaycastResult)
    (cand : α → Ray → List ℝ) (recOf : α → Ray → ℝ → HitRecord)
    (hmin : HitIsMinimal hitFn cand recOf)
    (ray : Ray) (t_min : ℝ) (t_max0 : WithTop ℝ) :
    ∀ (objs seen : List α) (st : RaycastResult × WithTop ℝ),
      FoldInv hitFn cand recOf ray t_min t_max0 seen st →
      FoldInv hitFn cand recOf ray t_min t_max0 (seen ++ objs)
        (objs.foldl
          (fun st obj =>
            match hitFn obj ray t_min st.2 with
            | .Hit rec => (RaycastResult.Hit rec, (rec.time : WithTop ℝ))
            | .Miss => st) st) := by
  intro objs
  induction objs with
  | nil =>
      intro seen st h
      simpa using h
  | cons o rest ih =>
      intro seen st h
      have hstep := foldInv_step hitFn cand recOf hmin ray t_min t_max0 seen o st h
      have hrec := ih (seen ++ [o]) _ hstep
      rw [List.foldl_cons]
      simpa [List.append_assoc] using hrec

/-- Claim C5: for every collection of well-behaved hittable objects
(`HitIsMinimal` is exactly the per-object contract: each object's hit
returns its minimum candidate time in range) and every ray and range,
`HittableList::hit` misses exactly when no object has a valid hit in the
range, and any hit it returns is a record of one of the objects whose time
is the minimum valid candidate time over all objects — the closest hit,
not merely the first found. -/
theorem claim_C5 {α : Type} (hitFn : α → Ray → ℝ → WithTop ℝ → RaycastResult)
    (cand : α → Ray → List ℝ) (recOf : α → Ray → ℝ → HitRecord)
    (hmin : HitIsMinimal hitFn cand recOf) (objects : List α) (ray : Ray)
    (t_min : ℝ) (t_max : WithTop ℝ) :
    (hittableListHit hitFn objects ray t_min t_max = .Miss
      ↔ ∀ o ∈ objects, ∀ t ∈ cand o ray, ¬(t_min ≤ t ∧ (t : WithTop ℝ) ≤ t_max))
    ∧ ∀ rec, hittableListHit hitFn objects ray t_min t_max = .Hit rec →
        (∃ o ∈ objects, rec = recOf o ray rec.time ∧ rec.time ∈ cand o ray)
        ∧ t_min ≤ rec.time ∧ (rec.time : WithTop ℝ) ≤ t_max
        ∧ ∀ o ∈ objects, ∀ t ∈ cand o ray, t_min ≤ t → (t : WithTop ℝ) ≤ t_max →
            rec.time ≤ t := by
  have hinv := foldInv_fold hitFn cand recOf hmin ray t_min t_max objects []
    (RaycastResult.Miss, t_max)
    (foldInv_init hitFn cand recOf ray t_min t_max)
  simp only [List.nil_append] at hinv
  constructor
  · constructor
    · intro hmiss
      exact (hinv.1 hmiss).2
    · intro hnone
      cases hres : hittableListHit hitFn objects ray t_min t_max with
      | Miss => rfl
      | Hit rec =>
          obtain ⟨_, hex, htmin, htmax, _⟩ := hinv.2 rec hres
          obtain ⟨o, ho, _, hmem⟩ := hex
          exact absurd ⟨htmin, htmax⟩ (hnone o ho rec.time hmem)
  · intro rec hr
    exact (hinv.2 rec hr).2

private lemma testHitFn_minimal : HitIsMinimal testHitFn testCand testRec := by
  intro o ray t_min t_max
  constructor
  · intro rec h
    unfold testHitFn at h
    split_ifs at h with hc
    have heq : testRec o ray o = rec := by simpa using h
    subst heq
    refine ⟨rfl, by simp [testCand, testRec], hc.1, hc.2, ?_⟩
    intro t ht _ _
    have : t = o := by simpa [testCand] using ht
    subst this
    exact le_refl _
  · intro h t ht hvalid
    unfold testHitFn at h
    split_ifs at h with hc
    have : t = o := by simpa [testCand] using ht
    subst this
    exact hc hvalid

/-- Witness for C5: two test objects with hit times 5 and 3, queried over
`[1/1000, ∞)`: the fold narrows `t_max` to 5 after the first object, the
second object still reports its closer time 3, and the collection returns
the closest hit (time 3), as the theorem instance asserts. -/
theorem claim_C5_witness :
    hittableListHit testHitFn [(5 : ℝ), 3] rayW (1/1000) ⊤
      = .Hit (testRec 3 rayW 3)
    ∧ (hittableListHit testHitFn [(5 : ℝ), 3] rayW (1/1000) ⊤ = .Miss
        ↔ ∀ o ∈ [(5 : ℝ), 3], ∀ t ∈ testCand o rayW,
            ¬((1/1000 : ℝ) ≤ t ∧ (t : WithTop ℝ) ≤ ⊤))
    ∧ ∀ rec, hittableListHit testHitFn [(5 : ℝ), 3] rayW (1/1000) ⊤ = .Hit rec →
        (∃ o ∈ [(5 : ℝ), 3], rec = testRec o rayW rec.time
            ∧ rec.time ∈ testCand o rayW)
        ∧ (1/1000 : ℝ) ≤ rec.time ∧ (rec.time : WithTop ℝ) ≤ ⊤
        ∧ ∀ o ∈ [(5 : ℝ), 3], ∀ t ∈ testCand o rayW,
            (1/1000 : ℝ) ≤ t → (t : WithTop ℝ) ≤ ⊤ → rec.time ≤ t := by
  have H := claim_C5 testHitFn testCand testRec testHitFn_minimal
    [(5 : ℝ), 3] rayW (1/1000) ⊤
  refine ⟨?_, H.1, H.2⟩
  have h5 : testHitFn 5 rayW (1/1000) ⊤ = .Hit (testRec 5 rayW 5) := by
    rw [testHitFn, if_pos]
    exact ⟨by norm_num, le_top⟩
  have h3 : testHitFn 3 rayW (1/1000) ((5 : ℝ) : WithTop ℝ)
      = .Hit (testRec 3 rayW 3) := by
    rw [testHitFn, if_pos]
    refine ⟨by norm_num, ?_⟩
    exact_mod_cast (by norm_num : (3 : ℝ) ≤ 5)
  simp only [hittableListHit, List.foldl_cons, List.foldl_nil, h5]
  simp only [testRec, h3]

/-! ## The recursive shading algorithm, claim C4 -/

/-- Claim C4: `ray_color` returns black at depth 0; otherwise it intersects
the scene over `[0.001, +∞)`; a miss yields the flat white background; a
hit yields `emitted + attenuation * ray_color(scattered, depth - 1)` when
the material scatters and `emitted` alone when it absorbs (assuming, as
the claim's hit case implicitly does, that the hit's material key
resolves). -/
theorem claim_C4 (w : World) (fuel : ℕ) (ray_in : Ray) (rng : Rng) (depth : ℕ) :
    World.ray_color w fuel 0 ray_in rng = some Rgba.ZERO
    ∧ (w.hittablesHit ray_in (1/1000) ⊤ = .Miss →
        World.ray_color w fuel (depth + 1) ray_in rng = some Rgba.ONE)
    ∧ (∀ rec material ray_out color rng2,
        w.hittablesHit ray_in (1/1000) ⊤ = .Hit rec →
        w.materials.get rec.material = some material →
        material.scatter fuel ray_in rec w.textures rng
          = (.Scattered ray_out color, rng2) →
        World.ray_color w fuel (depth + 1) ray_in rng
          = (World.ray_color w fuel depth ray_out rng2).map
              (fun c =>
                material.emit fuel rec.u rec.v rec.point w.textures + color * c))
    ∧ (∀ rec material rng2,
        w.hittablesHit ray_in (1/1000) ⊤ = .Hit rec →
        w.materials.get rec.material = some material →
        material.scatter fuel ray_in rec w.textures rng = (.Absorbed, rng2) →
        World.ray_color w fuel (depth + 1) ray_in rng
          = some (material.emit fuel rec.u rec.v rec.point w.textures)) := by
  refine ⟨rfl, ?_, ?_, ?_⟩
  · intro h
    simp only [World.ray_color, h]
  · intro rec material ray_out color rng2 hhit hget hscatter
    simp only [World.ray_color, hhit, hget, hscatter]
  · intro rec material rng2 hhit hget hscatter
    simp only [World.ray_color, hhit, hget, hscatter]

/-- Witness for C4: concrete worlds exercising every branch — depth 0 is
black, the all-missing world gives white, the diffuse-light world gives
its emission alone, and the glass world (total internal reflection setup)
gives the mapped recursive expression. -/
theorem claim_C4_witness :
    World.ray_color wmiss 0 0 rayW rng0 = some Rgba.ZERO
    ∧ World.ray_color wmiss 0 1 rayW rng0 = some Rgba.ONE
    ∧ World.ray_color wlight 0 1 rayW rng0
        = some (SimpleMaterial.emit 0 (.DiffuseLight 0) recL.u recL.v recL.point
            wlight.textures)
    ∧ World.ray_color wdiel 0 1 ray7 rng0
        = (World.ray_color wdiel 0 0
              ⟨rec7.point, reflect (unit_direction ray7) rec7.normal⟩
              (Rng.gen rng0).2).map
            (fun c =>
              SimpleMaterial.emit 0 (.Dielectric (3/2)) rec7.u rec7.v rec7.point
                  wdiel.textures + Rgba.ONE * c) := by
  refine ⟨(claim_C4 wmiss 0 rayW rng0 0).1,
    (claim_C4 wmiss 0 rayW rng0 0).2.1 rfl,
    (claim_C4 wlight 0 rayW rng0 0).2.2.2 recL (.DiffuseLight 0) rng0
      rfl rfl rfl, ?_⟩
  have hscatter :
      SimpleMaterial.scatter 0 (.Dielectric (3/2)) ray7 rec7 wdiel.textures rng0
        = (.Scattered ⟨rec7.point, reflect (unit_direction ray7) rec7.normal⟩
            Rgba.ONE, (Rng.gen rng0).2) := by
    simp only [SimpleMaterial.scatter]
    exact dielectric_scatter_eval
  exact (claim_C4 wdiel 0 ray7 rng0 0).2.2.1 rec7 (.Dielectric (3/2))
    ⟨rec7.point, reflect (unit_direction ray7) rec7.normal⟩ Rgba.ONE
    (Rng.gen rng0).2 rfl rfl hscatter

/-! ## Missing-key handling, claim C2 -/

/-- Counterexample for C2: the claim says `ray_color` applied to a ray
that hits a primitive whose material key is missing from the material
pool still returns a colour.  In the code the lookup is
`self.materials.get(rec.material).expect("No material found!")`, which
panics; in the embedding the panic is the `none` result.  In the world
`wcx` every ray hits a primitive carrying material key 0 and the material
pool is empty, and `ray_color` at depth 1 produces `none` — the render
fails instead of continuing with magenta. -/
theorem claim_C2_counterexample :
    World.ray_color wcx 0 1 rayW rng0 = none := rfl

/-- Claim C2 as amended: texture keys missing from the texture pool do
resolve to magenta and rendering continues (`DiffuseLight` emission and
the Lambertian albedo lookup are shown), but a material key missing from
the material pool makes `ray_color` panic (`none`), not fall back to
magenta. -/
theorem claim_C2 (texture_map : KeyMap SimpleTexture) (k : Key) (fuel : ℕ)
    (u v : ℝ) (p : Vec3) (h : texture_map.get k = none) :
    SimpleMaterial.emit fuel (.DiffuseLight k) u v p texture_map = Rgba.magenta
    ∧ (∀ (ray_in : Ray) (rec : HitRecord) (rng : Rng), ∃ ray_out,
        (SimpleMaterial.scatter fuel (.Lambertian k) ray_in rec texture_map rng).1
          = .Scattered ray_out Rgba.magenta)
    ∧ (∀ (w : World) (ray_in : Ray) (rng : Rng) (depth : ℕ) (rec : HitRecord),
        w.hittablesHit ray_in (1/1000) ⊤ = .Hit rec →
        w.materials.get rec.material = none →
        World.ray_color w fuel (depth + 1) ray_in rng = none) := by
  refine ⟨?_, ?_, ?_⟩
  · simp only [SimpleMaterial.emit, texture_lookup, h]
  · intro ray_in rec rng
    simp only [SimpleMaterial.scatter, lambertian_scatter, texture_lookup, h]
    exact ⟨_, rfl⟩
  · intro w ray_in rng depth rec hhit hget
    simp only [World.ray_color, hhit, hget]

/-- Witness for C2 (amended): with the empty texture pool and key 0, the
diffuse-light emission is magenta, the Lambertian scatter attenuation is
magenta, and in the world `wcx` (hit with a material key absent from the
pool) `ray_color` is `none`. -/
theorem claim_C2_witness :
    KeyMap.get ([] : KeyMap SimpleTexture) 0 = none
    ∧ SimpleMaterial.emit 0 (.DiffuseLight 0) 0 0 Vec3.ZERO [] = Rgba.magenta
    ∧ (∃ ray_out,
        (SimpleMaterial.scatter 0 (.Lambertian 0) rayW recL [] rng0).1
          = .Scattered ray_out Rgba.magenta)
    ∧ World.ray_color wcx 0 1 rayW rng0 = none := by
  have H := claim_C2 [] 0 0 0 0 Vec3.ZERO rfl
  exact ⟨rfl, H.1, H.2.1 rayW recL rng0, H.2.2 wcx rayW rng0 0 recL rfl rfl⟩

end

end Razz
